import Mathlib

/-!
Verification of the AeroWork Session Registry
(`src-tauri/src/core/session_registry.rs`).

The development shallowly embeds the registry: JSON values become an
inductive `Json`; a transcript file becomes a `List (Option Json)` where
`none` stands for a blank or malformed line (both are skipped identically
by every consumer in the source); the concurrent `HashMap` of active
sessions becomes a list of `ActiveSession` keyed by `id` (the source
always stores the session under its own id); filesystem reads
(`canonicalize`, file modification time, `Utc::now`, `Uuid::new_v4`,
timestamp parsing) are threaded in as explicit parameters, since they are
environment effects.  Rust `u32` message counts are modelled as `Nat`
(the count only ever increments by one per transcript line, so overflow
is unreachable for any list we quantify over here in a way the claims
touch).
-/

/-- JSON value model mirroring the subset of `serde_json::Value` the
registry touches: `get` on an object, `as_str`, `as_bool`, `as_array`. -/
inductive Json where
  | null : Json
  | bool (b : Bool) : Json
  | num (n : Int) : Json
  | str (s : String) : Json
  | arr (elems : List Json) : Json
  | obj (fields : List (String × Json)) : Json

namespace Json

/-- Model of `serde_json::Value::get(key)`: field lookup on an object,
`none` on every other shape. -/
def get : Json → String → Option Json
  | .obj fields, key => (fields.find? (fun p => p.1 = key)).map (fun p => p.2)
  | _, _ => none

/-- Model of `Value::as_str`. -/
def asStr : Json → Option String
  | .str s => some s
  | _ => none

/-- Model of `Value::as_bool`. -/
def asBool : Json → Option Bool
  | .bool b => some b
  | _ => none

/-- Model of `Value::as_array`. -/
def asArr : Json → Option (List Json)
  | .arr elems => some elems
  | _ => none

/-- Shorthand for `entry.get(key).and_then(|v| v.as_str())`. -/
def getStr (j : Json) (key : String) : Option String :=
  (j.get key).bind asStr

/-- Shorthand for `entry.get(key).and_then(|v| v.as_bool())`. -/
def getBool (j : Json) (key : String) : Option Bool :=
  (j.get key).bind asBool

end Json

/-- Rust `str::starts_with` on string slices, modelled character-wise. -/
def strStartsWith (s p : String) : Bool :=
  p.data.isPrefixOf s.data

/-- Rust `str::replace(pat, rep)` for a single-character pattern and a
single-character replacement, which is how the codec uses it. -/
def replaceChar (a b : Char) (s : String) : String :=
  String.mk (s.data.map (fun c => if c = a then b else c))

/-- Model of `cwd_to_path_key` from the source: try to canonicalize the
cwd (the filesystem resolution is the explicit `canon` parameter; `none`
models a failed canonicalization, in which case the literal string is
used), then replace every path separator and every underscore with a
dash. -/
def cwd_to_path_key (canon : String → Option String) (cwd : String) : String :=
  let resolved := (canon cwd).getD cwd
  replaceChar '_' '-' (replaceChar '/' '-' resolved)

/-- Model of `path_key_to_cwd` from the source: replace every dash with a
path separator. -/
def path_key_to_cwd (path_key : String) : String :=
  replaceChar '-' '/' path_key

/-- Model of `truncate_string`: keep at most `max_chars` characters; when
truncation happens, append the three-dot ellipsis marker. -/
def truncate_string (s : String) (max_chars : Nat) : String :=
  let char_count := s.data.length
  if char_count ≤ max_chars then s
  else String.mk (s.data.take max_chars) ++ "..."

/-- The fixed `SYSTEM_MESSAGE_PATTERNS` table from the source. -/
def SYSTEM_MESSAGE_PATTERNS : List String :=
  ["<command-name>",
   "<command-message>",
   "<command-args>",
   "<local-command-stdout>",
   "<system-reminder>",
   "Caveat:",
   "This session is being continued from a previous",
   "Invalid API key",
   "\x7b\"subtasks\":",
   "CRITICAL: You MUST respond with ONLY a JSON",
   "Warmup"]

/-- Model of `is_system_message`: empty content is not a system message;
otherwise, any pattern of the table matching as a prefix makes it one. -/
def is_system_message (content : String) : Bool :=
  if content = "" then false
  else SYSTEM_MESSAGE_PATTERNS.any (fun pat => strStartsWith content pat)

/-- Model of `extract_text_content`: a plain string, or the first element
of an array carrying a `text` field or itself being a string; anything
else yields no content. -/
def extract_text_content (content : Option Json) : Option String :=
  match content with
  | none => none
  | some c =>
    match c.asStr with
    | some s => some s
    | none =>
      match c.asArr with
      | some elems =>
        match elems.head? with
        | some first =>
          match (first.get "text").bind Json.asStr with
          | some t => some t
          | none => first.asStr
        | none => none
      | none => none

/-- Output record of the registry, mirroring `SessionInfo`. -/
structure SessionInfo where
  id : String
  summary : String
  message_count : Nat
  last_activity : String
  cwd : String
  active : Bool
  project : Option String
  last_user_message : Option String
  last_assistant_message : Option String
deriving DecidableEq, Repr

/-- In-memory state of a connected session, mirroring `ActiveSession`.
Timestamps are modelled by their RFC 3339 rendering (the only use the
listing code makes of them); the negotiated modes and models are opaque
payloads never consulted by the registry logic under verification. -/
structure ActiveSession where
  id : String
  cwd : String
  created_at : String
  last_activity : String
  modes : Option Unit
  models : Option Unit
deriving DecidableEq, Repr

/-- Response of `list_sessions`. -/
structure ListSessionsResponse where
  sessions : List SessionInfo
  has_more : Bool
  total : Nat
deriving DecidableEq, Repr

/-! The transcript parser (`parse_session_file`), embedded as a left fold
over the file's lines with the loop's mutable locals gathered into a
state record. `pending_summaries` models the `HashMap<String, String>`:
insertion conses in front, lookup takes the first hit, so the latest
insertion for a key wins exactly as in the source. -/

/-- Mutable locals of the `parse_session_file` loop. -/
structure ParseState where
  summary : String
  message_count : Nat
  last_activity : String
  cwd : String
  last_user_message : Option String
  last_assistant_message : Option String
  pending_summaries : List (String × String)
deriving DecidableEq, Repr

/-- Initial loop state of `parse_session_file`. -/
def initParseState : ParseState :=
  { summary := "New Session", message_count := 0, last_activity := "",
    cwd := "", last_user_message := none, last_assistant_message := none,
    pending_summaries := [] }

/-- Lookup in the pending-summaries map (`HashMap::get`). -/
def lookupPending (pend : List (String × String)) (key : String) : Option String :=
  (pend.find? (fun p => p.1 = key)).map (fun p => p.2)

/-- Staging step of the loop: a line of type `summary` carrying both a
summary text and a `leafUuid` stages the text keyed by the leaf
(`HashMap::insert`, latest insertion winning). -/
def stagePending (e : Json) (pend : List (String × String)) : List (String × String) :=
  if e.getStr "type" = some "summary" then
    match e.getStr "summary", e.getStr "leafUuid" with
    | some s, some leaf => (leaf, s) :: pend
    | _, _ => pend
  else pend

/-- Staging step lifted to the loop state. -/
def stageSummary (e : Json) (st : ParseState) : ParseState :=
  { st with pending_summaries := stagePending e st.pending_summaries }

/-- Cwd update step: the first line carrying a `cwd` field fixes it. -/
def updateCwd (e : Json) (st : ParseState) : ParseState :=
  if st.cwd = "" then
    match e.getStr "cwd" with
    | some c => { st with cwd := c }
    | none => st
  else st

/-- Pending-summary application step: while the running summary is still
"New Session", a line whose `parentUuid` matches a staged `leafUuid`
adopts the staged text. -/
def applyPendingSummary (e : Json) (st : ParseState) : ParseState :=
  if st.summary = "New Session" then
    match e.getStr "parentUuid" with
    | some pu =>
      match lookupPending st.pending_summaries pu with
      | some s => { st with summary := s }
      | none => st
    | none => st
  else st

/-- Summary-event step: a line of type `summary` that reached this point
(and therefore carries a session id) overwrites the running summary
unconditionally. -/
def applySummaryEvent (e : Json) (st : ParseState) : ParseState :=
  if e.getStr "type" = some "summary" then
    match e.getStr "summary" with
    | some s => { st with summary := s }
    | none => st
  else st

/-- Message-tracking step: every line with a `message` field increments
`message_count`; the previews are updated only for extractable,
non-system text, the assistant preview additionally only when the line is
not flagged as an API error. -/
def trackMessage (e : Json) (st : ParseState) : ParseState :=
  match e.get "message" with
  | some msg =>
    let role := msg.getStr "role"
    let content := extract_text_content (msg.get "content")
    let st :=
      match content with
      | some text =>
        if ¬ is_system_message text then
          match role with
          | some r =>
            if r = "user" then { st with last_user_message := some text }
            else if r = "assistant" then
              if e.getBool "isApiErrorMessage" ≠ some true then
                { st with last_assistant_message := some text }
              else st
            else st
          | none => st
        else st
      | none => st
    { st with message_count := st.message_count + 1 }
  | none => st

/-- Timestamp step: any line carrying a `timestamp` string overwrites the
running last activity. -/
def updateTimestamp (e : Json) (st : ParseState) : ParseState :=
  match e.getStr "timestamp" with
  | some ts => { st with last_activity := ts }
  | none => st

/-- One iteration of the `parse_session_file` loop.  A `none` line stands
for a blank or JSON-malformed line, skipped by the source.  Summary
staging runs before the session-id gate (the source stages summaries for
lines without a session id too); everything else requires a session id. -/
def processLine (st : ParseState) (line : Option Json) : ParseState :=
  match line with
  | none => st
  | some e =>
    let st := stageSummary e st
    match e.getStr "sessionId" with
    | none => st
    | some _ =>
      updateTimestamp e (trackMessage e (applySummaryEvent e
        (applyPendingSummary e (updateCwd e st))))

/-- Loop state after scanning a whole file. -/
def scanFile (lines : List (Option Json)) : ParseState :=
  lines.foldl processLine initParseState

/-- Model of `parse_session_file`.  The `mtime` parameter carries the
file's modification time (rendered to RFC 3339) when the metadata call
succeeds; it is the fallback for a file with no timestamped line.  A file
with zero counted messages yields `none`; otherwise the final summary
falls back to a 50-character truncation of the latest user (else
assistant) message when no summary event or pending match fired. -/
def parse_session_file (mtime : Option String) (lines : List (Option Json)) :
    Option SessionInfo :=
  let st := scanFile lines
  if st.message_count = 0 then none
  else
    let summary :=
      if st.summary = "New Session" then
        match st.last_user_message with
        | some m => truncate_string m 50
        | none =>
          match st.last_assistant_message with
          | some m => truncate_string m 50
          | none => st.summary
      else st.summary
    let last_activity :=
      if st.last_activity = "" then mtime.getD st.last_activity
      else st.last_activity
    some { id := "", summary := summary, message_count := st.message_count,
           last_activity := last_activity, cwd := st.cwd, active := false,
           project := none, last_user_message := st.last_user_message,
           last_assistant_message := st.last_assistant_message }

/-- A line carries a message event when it parses, has a session id, and
has a `message` field: these are exactly the lines on which
`parse_session_file` increments `message_count`. -/
def isMessageLine (line : Option Json) : Bool :=
  match line with
  | some e => (e.getStr "sessionId").isSome && (e.get "message").isSome
  | none => false

/-- Count of message-event lines of a file. -/
def countMessageLines (lines : List (Option Json)) : Nat :=
  lines.countP isMessageLine

/-- Preview sanity predicate: an absent preview, or one whose text is not
a system message. -/
def previewOk : Option String → Bool
  | none => true
  | some t => !is_system_message t

/-! Model of the chat-history loader (`load_session_chat_items`). -/

/-- Role of a chat message, mirroring `MessageRole`. -/
inductive MessageRole where
  | user : MessageRole
  | assistant : MessageRole
deriving DecidableEq, Repr

/-- Chat message, mirroring `Message` (timestamp in milliseconds). -/
structure Message where
  id : String
  role : MessageRole
  content : String
  timestamp : Int
deriving DecidableEq, Repr

/-- Chat item, mirroring `ChatItem`; the loader only ever produces the
message variant. -/
inductive ChatItem where
  | message (message : Message) : ChatItem
deriving DecidableEq, Repr

/-- The `MAX_HISTORY_ITEMS` constant from the source. -/
def MAX_HISTORY_ITEMS : Nat := 200

/-- One iteration of the `load_session_chat_items` loop, as the optional
message it pushes.  Environment effects are explicit parameters:
`parseTs` models RFC 3339 timestamp parsing to milliseconds, `nowMs`
models `Utc::now` (the fallback timestamp), and `freshId k` models the
`k`-th `Uuid::new_v4` call used when a line has no `uuid` field; `k` is
the number of items accepted so far. -/
def chatLineMessage (parseTs : String → Option Int) (nowMs : Int)
    (freshId : Nat → String) (k : Nat) (line : Option Json) : Option Message :=
  match line with
  | none => none
  | some entry =>
    if (entry.getStr "sessionId").isNone then none
    else if entry.getBool "isApiErrorMessage" = some true then none
    else
      match entry.get "message" with
      | none => none
      | some msg =>
        match msg.getStr "role", extract_text_content (msg.get "content") with
        | some roleStr, some text =>
          if is_system_message text then none
          else
            match (match roleStr with
                   | "user" => some MessageRole.user
                   | "assistant" => some MessageRole.assistant
                   | _ => none) with
            | none => none
            | some role =>
              let timestamp := ((entry.getStr "timestamp").bind parseTs).getD nowMs
              let id := (entry.getStr "uuid").getD (freshId k)
              some { id := id, role := role, content := text, timestamp := timestamp }
        | _, _ => none

/-- Model of `load_session_chat_items`: push one `ChatItem` per accepted
line in file order, then keep only the most recent `MAX_HISTORY_ITEMS`
entries (`split_off(total - MAX)` is a drop of the excess front). -/
def load_session_chat_items (parseTs : String → Option Int) (nowMs : Int)
    (freshId : Nat → String) (lines : List (Option Json)) : List ChatItem :=
  let chat_items := lines.foldl
    (fun acc line =>
      match chatLineMessage parseTs nowMs freshId acc.length line with
      | some m => acc ++ [ChatItem.message m]
      | none => acc)
    []
  let total := chat_items.length
  if total > MAX_HISTORY_ITEMS then chat_items.drop (total - MAX_HISTORY_ITEMS)
  else chat_items

/-- Decision of the loader's line filter, independent of the
environment parameters. -/
def acceptChatLine (line : Option Json) : Bool :=
  match line with
  | none => false
  | some entry =>
    if (entry.getStr "sessionId").isNone then false
    else if entry.getBool "isApiErrorMessage" = some true then false
    else
      match entry.get "message" with
      | none => false
      | some msg =>
        match msg.getStr "role", extract_text_content (msg.get "content") with
        | some roleStr, some text =>
          if is_system_message text then false
          else
            match roleStr with
            | "user" => true
            | "assistant" => true
            | _ => false
        | _, _ => false

/-- Reference recursion for the loader: the full accepted sequence in
file order, `k` counting the items accepted so far (the fresh-id
supply's index). -/
def collectChat (parseTs : String → Option Int) (nowMs : Int)
    (freshId : Nat → String) : List (Option Json) → Nat → List ChatItem
  | [], _ => []
  | line :: rest, k =>
    match chatLineMessage parseTs nowMs freshId k line with
    | some m => ChatItem.message m :: collectChat parseTs nowMs freshId rest (k + 1)
    | none => collectChat parseTs nowMs freshId rest k

/-- Suffix retention applied by the loader. -/
def suffixKeep (bound : Nat) (items : List ChatItem) : List ChatItem :=
  if items.length > bound then items.drop (items.length - bound) else items

/-! Model of the merge and pagination engine (`list_sessions`,
`find_session_file`, `get_session_info`).  The filesystem snapshot seen
by one call is a `Registry`: the active table plus the transcript tree
(one entry per immediate subdirectory of the projects root, in read-dir
order; a missing projects root is the empty list).  The intermediate
`HashMap<SessionId, SessionInfo>` is modelled as a list of `SessionInfo`
keyed by the `id` field — the source always inserts a record under its
own id, so map key and field coincide. -/

/-- One transcript file: name stem, extension, parsed lines, and the
modification time the metadata call would report. -/
structure SessionFile where
  name : String
  ext : String
  lines : List (Option Json)
  mtime : Option String

/-- One project directory under the transcript root. -/
structure ProjectDir where
  name : String
  files : List SessionFile

/-- Snapshot of the registry state observed by one call. -/
structure Registry where
  active : List ActiveSession
  projects : List ProjectDir

/-- The intermediate result map of `list_sessions`, keyed by `id`. -/
abbrev SessionMap := List SessionInfo

/-- Model of `HashMap::contains_key` on the result map. -/
def containsKey (m : SessionMap) (k : String) : Bool :=
  m.any (fun r => r.id = k)

/-- Model of `HashMap::get` on the result map. -/
def getInfo (m : SessionMap) (k : String) : Option SessionInfo :=
  m.find? (fun r => r.id = k)

/-- Model of `HashMap::insert` on the result map: overwrite in place when
the key exists, otherwise append. -/
def upsertInfo (m : SessionMap) (v : SessionInfo) : SessionMap :=
  if containsKey m v.id then m.map (fun r => if r.id = v.id then v else r)
  else m ++ [v]

/-- Model of `HashMap::get_mut` followed by a field update. -/
def modifyInfo (m : SessionMap) (k : String) (f : SessionInfo → SessionInfo) : SessionMap :=
  m.map (fun r => if r.id = k then f r else r)

/-- The placeholder record seeded for an active session (step 1 of
`list_sessions`). -/
def activeInfo (canon : String → Option String) (s : ActiveSession) : SessionInfo :=
  { id := s.id, summary := "Active session", message_count := 0,
    last_activity := s.last_activity, cwd := s.cwd, active := true,
    project := some (cwd_to_path_key canon s.cwd),
    last_user_message := none, last_assistant_message := none }

/-- Step 1 of `list_sessions`: seed the result map from the active table,
filtered by cwd when a filter is given. -/
def seedActive (canon : String → Option String) (filter_cwd : Option String)
    (active : List ActiveSession) : SessionMap :=
  active.foldl
    (fun m s =>
      match filter_cwd with
      | some f => if s.cwd = f then upsertInfo m (activeInfo canon s) else m
      | none => upsertInfo m (activeInfo canon s))
    []

/-- Step 2 of `list_sessions`: directories to scan — the single encoded
directory when filtered (skipped when it does not exist), else every
subdirectory of the projects root. -/
def selectDirs (canon : String → Option String) (projects : List ProjectDir) :
    Option String → List ProjectDir
  | some f =>
    match projects.find? (fun d => d.name = cwd_to_path_key canon f) with
    | some d => [d]
    | none => []
  | none => projects

/-- Display-field enrichment of an already-present record from a parsed
transcript (the active-session merge of step 3). -/
def enrichInfo (parsed : SessionInfo) (existing : SessionInfo) : SessionInfo :=
  { existing with
    summary := parsed.summary,
    message_count := parsed.message_count,
    last_user_message := parsed.last_user_message,
    last_assistant_message := parsed.last_assistant_message }

/-- Historical record built from a parsed transcript (step 3's insert
branch): id from the file stem, inactive, project from the directory
name, cwd decoded from the directory name when the transcript carried
none. -/
def histInfo (projectName : String) (sid : String) (parsed : SessionInfo) : SessionInfo :=
  { parsed with
    id := sid, active := false, project := some projectName,
    cwd := if parsed.cwd = "" then path_key_to_cwd projectName else parsed.cwd }

/-- Step 3 of `list_sessions` for one directory entry: only `.jsonl`
files; an id already present is enriched from disk; otherwise ids with
the reserved background prefix are skipped, and a parseable transcript
inserts a historical record. -/
def processFile (projectName : String) (m : SessionMap) (f : SessionFile) : SessionMap :=
  if f.ext = "jsonl" then
    if containsKey m f.name then
      match parse_session_file f.mtime f.lines with
      | some parsed => modifyInfo m f.name (enrichInfo parsed)
      | none => m
    else if strStartsWith f.name "agent-" then m
    else
      match parse_session_file f.mtime f.lines with
      | some parsed => upsertInfo m (histInfo projectName f.name parsed)
      | none => m
  else m

/-- Step 3 of `list_sessions` over all selected directories. -/
def scanDirs (m : SessionMap) (dirs : List ProjectDir) : SessionMap :=
  dirs.foldl (fun m d => d.files.foldl (processFile d.name) m) m

/-- The merged result set of `list_sessions` before sorting and
pagination. -/
def mergedSessions (canon : String → Option String) (reg : Registry)
    (filter_cwd : Option String) : SessionMap :=
  scanDirs (seedActive canon filter_cwd reg.active)
    (selectDirs canon reg.projects filter_cwd)

/-- Lexicographic comparison of character lists, mirroring Rust's
`str::cmp` rendered as "less or equal". -/
def charListLe : List Char → List Char → Bool
  | [], _ => true
  | _ :: _, [] => false
  | a :: as, b :: bs => if a = b then charListLe as bs else decide (a < b)

/-- Descending comparator used by step 4: `b.last_activity` against
`a.last_activity`. -/
def sessionLe (a b : SessionInfo) : Bool :=
  charListLe b.last_activity.data a.last_activity.data

/-- Insertion step of the sort. -/
def insertSorted (x : SessionInfo) : List SessionInfo → List SessionInfo
  | [] => [x]
  | y :: ys => if sessionLe x y then x :: y :: ys else y :: insertSorted x ys

/-- Step 4 of `list_sessions`: sort by last activity, newest first
(`sort_by` with the reversed string comparison; the tie order among equal
timestamps is unspecified by the spec, and insertion sort realises one
admissible order). -/
def sortSessions : List SessionInfo → List SessionInfo
  | [] => []
  | x :: xs => insertSorted x (sortSessions xs)

/-- Model of `list_sessions`: merge, sort, paginate. -/
def list_sessions (canon : String → Option String) (reg : Registry)
    (cwd : Option String) (limit offset : Nat) : ListSessionsResponse :=
  let sessions := sortSessions (mergedSessions canon reg cwd)
  let total := sessions.length
  let paginated := (sessions.drop offset).take limit
  { sessions := paginated, has_more := decide (offset + limit < total),
    total := total }

/-- Model of `find_session_file`: first project directory (in read-dir
order) containing a file named after the session id with the `.jsonl`
extension, together with its directory name. -/
def find_session_file (reg : Registry) (session_id : String) :
    Option (String × SessionFile) :=
  reg.projects.findSome? (fun d =>
    (d.files.find? (fun f => f.name = session_id && f.ext = "jsonl")).map
      (fun f => (d.name, f)))

/-- Model of `get_session_info`: the active table is authoritative and
answered from memory alone; only an id absent there is looked up on disk
and parsed, with project and cwd derived from the parent directory. -/
def get_session_info (canon : String → Option String) (reg : Registry)
    (session_id : String) : Option SessionInfo :=
  match reg.active.find? (fun s => s.id = session_id) with
  | some s =>
    some { id := session_id, summary := "Active session", message_count := 0,
           last_activity := s.last_activity, cwd := s.cwd, active := true,
           project := some (cwd_to_path_key canon s.cwd),
           last_user_message := none, last_assistant_message := none }
  | none =>
    match find_session_file reg session_id with
    | some (projectName, f) =>
      match parse_session_file f.mtime f.lines with
      | some parsed => some (histInfo projectName session_id parsed)
      | none => none
    | none => none

/-- Flattened directory-and-file view of a list of project directories,
in scan order. -/
def dirFiles (dirs : List ProjectDir) : List (String × SessionFile) :=
  dirs.flatMap (fun d => d.files.map (fun f => (d.name, f)))

/-- Reference reading of the spec's pending-summary rule: thread the
staging map through a forward scan and return the staged text of the
first line whose parent pointer matches a staged `leafUuid` (lines
without a session id never match), or "New Session" when no line
matches. -/
def firstMatchSummary : List (Option Json) → List (String × String) → String
  | [], _ => "New Session"
  | line :: rest, pend =>
    match line with
    | none => firstMatchSummary rest pend
    | some e =>
      let pend2 := stagePending e pend
      if (e.getStr "sessionId").isSome then
        match e.getStr "parentUuid" with
        | some pu =>
          match lookupPending pend2 pu with
          | some s => s
          | none => firstMatchSummary rest pend2
        | none => firstMatchSummary rest pend2
      else firstMatchSummary rest pend2

/-! Concrete inputs used by the counterexamples and witnesses below. -/

/-- Canonicalization that always fails, so the literal cwd is used. -/
def canonNone : String → Option String := fun _ => none

/-- Timestamp parser that always fails (its value is irrelevant to every
property proved here). -/
def tsNone : String → Option Int := fun _ => none

/-- Fresh-id supply standing for `Uuid::new_v4`. -/
def freshU : Nat → String := fun _ => "fresh-uuid"

/-- A transcript line whose message text begins with the
system-reminder marker. -/
def sysUserLine : Json :=
  Json.obj [("sessionId", Json.str "s"),
            ("message", Json.obj [("role", Json.str "user"),
                                  ("content", Json.str "<system-reminder>hi")])]

/-- An ordinary user message line. -/
def plainUserLine : Json :=
  Json.obj [("sessionId", Json.str "s"),
            ("message", Json.obj [("role", Json.str "user"),
                                  ("content", Json.str "hello world")]),
            ("uuid", Json.str "u-1")]

/-- A summary event that carries a session id (and no `leafUuid`): the
source's unconditional summary overwrite fires on it. -/
def summaryWithSidLine : Json :=
  Json.obj [("type", Json.str "summary"), ("summary", Json.str "S"),
            ("sessionId", Json.str "x")]

/-- Transcript refuting the original reading of the pending-summary
rule: no line carries a parent pointer, yet the summary changes. -/
def c5CexLines : List (Option Json) :=
  [some summaryWithSidLine,
   some (Json.obj [("sessionId", Json.str "x"),
                   ("message", Json.obj [("role", Json.str "user"),
                                         ("content", Json.str "hello")])])]

/-- Transcript exercising the pending-summary mechanism: a bare summary
event stages "Staged" under leaf `L`, and the following message line's
parent pointer matches it. -/
def pendLines : List (Option Json) :=
  [some (Json.obj [("type", Json.str "summary"), ("summary", Json.str "Staged"),
                   ("leafUuid", Json.str "L")]),
   some (Json.obj [("sessionId", Json.str "x"), ("parentUuid", Json.str "L"),
                   ("timestamp", Json.str "2024-01-01T00:00:00Z"),
                   ("message", Json.obj [("role", Json.str "user"),
                                         ("content", Json.str "hi there")])])]

/-- Registry with a live background (`agent-`) session and no disk
store. -/
def agentReg : Registry :=
  { active := [{ id := "agent-x", cwd := "/w", created_at := "t0",
                 last_activity := "t1", modes := none, models := none }],
    projects := [] }

/-- An on-disk transcript for a background session id. -/
def agentFile : SessionFile :=
  { name := "agent-y", ext := "jsonl",
    lines := [some (Json.obj [("sessionId", Json.str "agent-y"),
      ("message", Json.obj [("role", Json.str "user"),
                            ("content", Json.str "hi")])])],
    mtime := some "2024-01-01T00:00:00Z" }

/-- Registry whose only session is the on-disk background transcript. -/
def agentDiskReg : Registry :=
  { active := [], projects := [{ name := "-w", files := [agentFile] }] }

/-- Transcript whose only message line is system-filtered. -/
def sysOnlyFile : SessionFile :=
  { name := "sys-only", ext := "jsonl", lines := [some sysUserLine],
    mtime := some "2024-01-01T00:00:00Z" }

/-- Transcript with no message event at all (a bare summary event
only). -/
def noMsgFile : SessionFile :=
  { name := "empty-one", ext := "jsonl",
    lines := [some (Json.obj [("type", Json.str "summary"),
                              ("summary", Json.str "Staged"),
                              ("leafUuid", Json.str "L")])],
    mtime := some "2024-01-01T00:00:00Z" }

/-- Registry holding only the message-free transcript. -/
def noMsgReg : Registry :=
  { active := [], projects := [{ name := "-w", files := [noMsgFile] }] }

/-- Transcript file for the live session of `mergeReg`. -/
def s1File : SessionFile :=
  { name := "s1", ext := "jsonl", lines := pendLines,
    mtime := some "2024-02-02T00:00:00Z" }

/-- Registry with one session both live in memory and present on disk. -/
def mergeReg : Registry :=
  { active := [{ id := "s1", cwd := "/w", created_at := "t0",
                 last_activity := "2024-05-05T00:00:00Z", modes := none,
                 models := none }],
    projects := [{ name := "-w", files := [s1File] }] }

/-- Builder for the 25 distinct active sessions of the pagination
scenario. -/
def mkAct (n : Nat) : ActiveSession :=
  { id := String.mk [Char.ofNat (65 + n)], cwd := "/w", created_at := "t",
    last_activity := String.mk [Char.ofNat (97 + n)], modes := none,
    models := none }

/-- Registry with 25 eligible sessions. -/
def reg25 : Registry :=
  { active := (List.range 25).map mkAct, projects := [] }

/-- Transcript with 250 accepted message lines. -/
def manyLines : List (Option Json) :=
  List.replicate 250 (some plainUserLine)

/-! Frame lemmas for the steps of the `parse_session_file` loop. -/

theorem stageSummary_summary (e : Json) (st : ParseState) :
    (stageSummary e st).summary = st.summary := rfl

theorem stageSummary_message_count (e : Json) (st : ParseState) :
    (stageSummary e st).message_count = st.message_count := rfl

theorem stageSummary_last_user (e : Json) (st : ParseState) :
    (stageSummary e st).last_user_message = st.last_user_message := rfl

theorem stageSummary_last_assistant (e : Json) (st : ParseState) :
    (stageSummary e st).last_assistant_message = st.last_assistant_message := rfl

theorem stageSummary_pending (e : Json) (st : ParseState) :
    (stageSummary e st).pending_summaries = stagePending e st.pending_summaries := rfl

theorem updateCwd_frame (e : Json) (st : ParseState) :
    (updateCwd e st).summary = st.summary ∧
    (updateCwd e st).message_count = st.message_count ∧
    (updateCwd e st).last_user_message = st.last_user_message ∧
    (updateCwd e st).last_assistant_message = st.last_assistant_message ∧
    (updateCwd e st).pending_summaries = st.pending_summaries := by
  unfold updateCwd
  repeat' split
  all_goals exact ⟨rfl, rfl, rfl, rfl, rfl⟩

theorem applyPendingSummary_frame (e : Json) (st : ParseState) :
    (applyPendingSummary e st).message_count = st.message_count ∧
    (applyPendingSummary e st).last_user_message = st.last_user_message ∧
    (applyPendingSummary e st).last_assistant_message = st.last_assistant_message ∧
    (applyPendingSummary e st).pending_summaries = st.pending_summaries := by
  unfold applyPendingSummary
  repeat' split
  all_goals exact ⟨rfl, rfl, rfl, rfl⟩

theorem applySummaryEvent_frame (e : Json) (st : ParseState) :
    (applySummaryEvent e st).message_count = st.message_count ∧
    (applySummaryEvent e st).last_user_message = st.last_user_message ∧
    (applySummaryEvent e st).last_assistant_message = st.last_assistant_message ∧
    (applySummaryEvent e st).pending_summaries = st.pending_summaries := by
  unfold applySummaryEvent
  repeat' split
  all_goals exact ⟨rfl, rfl, rfl, rfl⟩

theorem trackMessage_frame (e : Json) (st : ParseState) :
    (trackMessage e st).summary = st.summary ∧
    (trackMessage e st).pending_summaries = st.pending_summaries := by
  unfold trackMessage
  cases h : e.get "message" <;> dsimp only <;> (repeat' split) <;> exact ⟨rfl, rfl⟩

theorem trackMessage_message_count (e : Json) (st : ParseState) :
    (trackMessage e st).message_count =
      st.message_count + (if (e.get "message").isSome then 1 else 0) := by
  unfold trackMessage
  cases h : e.get "message" <;> dsimp only <;> (repeat' split) <;> simp_all

theorem trackMessage_previewOk (e : Json) (st : ParseState)
    (hu : previewOk st.last_user_message = true)
    (ha : previewOk st.last_assistant_message = true) :
    previewOk (trackMessage e st).last_user_message = true ∧
    previewOk (trackMessage e st).last_assistant_message = true := by
  unfold trackMessage
  cases h : e.get "message" <;> dsimp only <;> (repeat' split) <;>
    simp_all [previewOk]

theorem updateTimestamp_frame (e : Json) (st : ParseState) :
    (updateTimestamp e st).summary = st.summary ∧
    (updateTimestamp e st).message_count = st.message_count ∧
    (updateTimestamp e st).last_user_message = st.last_user_message ∧
    (updateTimestamp e st).last_assistant_message = st.last_assistant_message ∧
    (updateTimestamp e st).pending_summaries = st.pending_summaries := by
  unfold updateTimestamp
  repeat' split
  all_goals exact ⟨rfl, rfl, rfl, rfl, rfl⟩

/-! Shape lemmas for `processLine`. -/

theorem processLine_none (st : ParseState) : processLine st none = st := rfl

theorem processLine_noSid (e : Json) (st : ParseState)
    (h : e.getStr "sessionId" = none) :
    processLine st (some e) = stageSummary e st := by
  simp only [processLine, h]

theorem processLine_sid (e : Json) (st : ParseState) (v : String)
    (h : e.getStr "sessionId" = some v) :
    processLine st (some e) =
      updateTimestamp e (trackMessage e (applySummaryEvent e
        (applyPendingSummary e (updateCwd e (stageSummary e st))))) := by
  simp only [processLine, h]

theorem processLine_message_count (st : ParseState) (line : Option Json) :
    (processLine st line).message_count =
      st.message_count + (if isMessageLine line then 1 else 0) := by
  cases line with
  | none => simp [processLine_none, isMessageLine]
  | some e =>
    cases h : e.getStr "sessionId" with
    | none =>
      rw [processLine_noSid e st h, stageSummary_message_count]
      simp [isMessageLine, h]
    | some v =>
      rw [processLine_sid e st v h]
      rw [(updateTimestamp_frame e _).2.1, trackMessage_message_count,
          (applySummaryEvent_frame e _).1, (applyPendingSummary_frame e _).1,
          (updateCwd_frame e _).2.1, stageSummary_message_count]
      simp [isMessageLine, h]

theorem processLine_previewOk (st : ParseState) (line : Option Json)
    (hu : previewOk st.last_user_message = true)
    (ha : previewOk st.last_assistant_message = true) :
    previewOk (processLine st line).last_user_message = true ∧
    previewOk (processLine st line).last_assistant_message = true := by
  cases line with
  | none => exact ⟨hu, ha⟩
  | some e =>
    cases h : e.getStr "sessionId" with
    | none =>
      rw [processLine_noSid e st h, stageSummary_last_user,
          stageSummary_last_assistant]
      exact ⟨hu, ha⟩
    | some v =>
      rw [processLine_sid e st v h]
      have hin :
          previewOk (applySummaryEvent e (applyPendingSummary e
            (updateCwd e (stageSummary e st)))).last_user_message = true ∧
          previewOk (applySummaryEvent e (applyPendingSummary e
            (updateCwd e (stageSummary e st)))).last_assistant_message = true := by
        rw [(applySummaryEvent_frame e _).2.1, (applySummaryEvent_frame e _).2.2.1,
            (applyPendingSummary_frame e _).2.1, (applyPendingSummary_frame e _).2.2.1,
            (updateCwd_frame e _).2.2.1, (updateCwd_frame e _).2.2.2.1,
            stageSummary_last_user, stageSummary_last_assistant]
        exact ⟨hu, ha⟩
      have hmain := trackMessage_previewOk e _ hin.1 hin.2
      rw [(updateTimestamp_frame e _).2.2.1, (updateTimestamp_frame e _).2.2.2.1]
      exact hmain


/-! Fold lemmas for the whole scan. -/

theorem foldl_processLine_message_count (lines : List (Option Json)) :
    ∀ st : ParseState, (lines.foldl processLine st).message_count =
      st.message_count + countMessageLines lines := by
  induction lines with
  | nil => intro st; simp [countMessageLines]
  | cons l rest ih =>
    intro st
    simp only [List.foldl_cons]
    rw [ih (processLine st l), processLine_message_count]
    unfold countMessageLines
    rw [List.countP_cons]
    cases hml : isMessageLine l
    all_goals simp [hml, countMessageLines]
    all_goals omega

theorem foldl_processLine_previewOk (lines : List (Option Json)) :
    ∀ st : ParseState, previewOk st.last_user_message = true →
      previewOk st.last_assistant_message = true →
      previewOk (lines.foldl processLine st).last_user_message = true ∧
      previewOk (lines.foldl processLine st).last_assistant_message = true := by
  induction lines with
  | nil => intro st hu ha; exact ⟨hu, ha⟩
  | cons l rest ih =>
    intro st hu ha
    simp only [List.foldl_cons]
    have hstep := processLine_previewOk st l hu ha
    exact ih (processLine st l) hstep.1 hstep.2

theorem scanFile_message_count (lines : List (Option Json)) :
    (scanFile lines).message_count = countMessageLines lines := by
  unfold scanFile
  rw [foldl_processLine_message_count]
  simp [initParseState]

theorem scanFile_previewOk (lines : List (Option Json)) :
    previewOk (scanFile lines).last_user_message = true ∧
    previewOk (scanFile lines).last_assistant_message = true := by
  unfold scanFile
  exact foldl_processLine_previewOk lines initParseState rfl rfl

/-- Fields of the record produced by a successful parse, in terms of the
final loop state. -/
theorem parse_session_file_some (mtime : Option String)
    (lines : List (Option Json)) (r : SessionInfo)
    (h : parse_session_file mtime lines = some r) :
    r.message_count = (scanFile lines).message_count ∧
    r.last_user_message = (scanFile lines).last_user_message ∧
    r.last_assistant_message = (scanFile lines).last_assistant_message ∧
    r.cwd = (scanFile lines).cwd ∧ r.id = "" ∧ r.active = false ∧
    r.project = none := by
  unfold parse_session_file at h
  dsimp only at h
  split at h
  · exact absurd h (by simp)
  · injection h with h2
    subst h2
    exact ⟨rfl, rfl, rfl, rfl, rfl, rfl, rfl⟩

/-- Helper for C2: a file with no message-event line parses to an absent
result. -/
theorem parse_none_of_no_message_lines (mtime : Option String)
    (lines : List (Option Json)) (h : countMessageLines lines = 0) :
    parse_session_file mtime lines = none := by
  have h0 : (scanFile lines).message_count = 0 := by
    rw [scanFile_message_count]; exact h
  unfold parse_session_file
  simp [h0]

/-- C1 counterexample: the claim says a message line whose extracted text
begins with a system marker never increments `message_count`; on a
transcript whose single line is such a message, `summarize` returns a
record with `message_count = 1`. -/
theorem c1_counterexample :
    (parse_session_file none [some sysUserLine]).map SessionInfo.message_count =
      some 1 ∧
    is_system_message "<system-reminder>hi" = true := by decide

/-- C1 (amended): `message_count` counts every line carrying a message
event — a parseable line with a session id and a `message` field — with
no system-message filtering applied to the count; a line whose extracted
text begins with a system marker never becomes the user or assistant
preview. -/
theorem message_count_counts_all_message_lines (mtime : Option String)
    (lines : List (Option Json)) (r : SessionInfo)
    (h : parse_session_file mtime lines = some r) :
    r.message_count = countMessageLines lines ∧
    previewOk r.last_user_message = true ∧
    previewOk r.last_assistant_message = true := by
  obtain ⟨hmc, hu, ha, -⟩ := parse_session_file_some mtime lines r h
  refine ⟨?_, ?_, ?_⟩
  · rw [hmc, scanFile_message_count]
  · rw [hu]; exact (scanFile_previewOk lines).1
  · rw [ha]; exact (scanFile_previewOk lines).2

/-- Witness for C1's amended theorem at a concrete one-line transcript. -/
theorem message_count_counts_all_message_lines_witness :
    ({ id := "", summary := "hello world", message_count := 1,
       last_activity := "", cwd := "", active := false, project := none,
       last_user_message := some "hello world",
       last_assistant_message := none } : SessionInfo).message_count =
        countMessageLines [some plainUserLine] ∧
    previewOk (some "hello world") = true ∧
    previewOk (none : Option String) = true :=
  message_count_counts_all_message_lines none [some plainUserLine]
    { id := "", summary := "hello world", message_count := 1,
      last_activity := "", cwd := "", active := false, project := none,
      last_user_message := some "hello world",
      last_assistant_message := none }
    (by decide)

/-! Permutation facts about the sort of step 4. -/

theorem insertSorted_perm (x : SessionInfo) (l : List SessionInfo) :
    (insertSorted x l).Perm (x :: l) := by
  induction l with
  | nil => exact List.Perm.refl _
  | cons y ys ih =>
    unfold insertSorted
    split
    · exact List.Perm.refl _
    · exact ((ih.cons y).trans (List.Perm.swap x y ys))

theorem sortSessions_perm (l : List SessionInfo) :
    (sortSessions l).Perm l := by
  induction l with
  | nil => exact List.Perm.refl _
  | cons x xs ih =>
    unfold sortSessions
    exact (insertSorted_perm x (sortSessions xs)).trans (ih.cons x)

/-- C8: the path-key codec. Encoding maps every separator and every
underscore of the resolved path to a dash (so its output never contains
an underscore), decoding maps every dash to a separator, and on the
concrete pair of the spec (with canonicalization failing, so the literal
string is used) the expected round trip holds. -/
theorem path_key_codec_correct :
    (∀ canon cwd, cwd_to_path_key canon cwd =
       String.mk (((canon cwd).getD cwd).data.map
         (fun c => if c = '/' ∨ c = '_' then '-' else c))) ∧
    (∀ key, path_key_to_cwd key =
       String.mk (key.data.map (fun c => if c = '-' then '/' else c))) ∧
    (∀ canon cwd,
      ((cwd_to_path_key canon cwd).data.all (fun c => !(c = '_'))) = true) ∧
    cwd_to_path_key canonNone "/Users/foo/project" = "-Users-foo-project" ∧
    path_key_to_cwd "-Users-foo-project" = "/Users/foo/project" := by
  refine ⟨?_, ?_, ?_, by decide, by decide⟩
  · intro canon cwd
    unfold cwd_to_path_key replaceChar
    dsimp only
    rw [List.map_map]
    congr 1
    apply List.map_congr_left
    intro c _
    by_cases h1 : c = '/'
    · subst h1; simp
    · by_cases h2 : c = '_'
      · subst h2; simp
      · simp [Function.comp, h1, h2]
  · intro key
    unfold path_key_to_cwd replaceChar
    rfl
  · intro canon cwd
    unfold cwd_to_path_key replaceChar
    dsimp only
    rw [List.all_eq_true]
    intro c hc
    rw [List.mem_map] at hc
    obtain ⟨a, -, rfl⟩ := hc
    by_cases h : a = '_' <;> simp [h]

/-- C10: `get_session_info` on an id found in the active table answers
purely from memory — placeholder summary, zero count, no previews — and
its result does not depend on the transcript tree at all. -/
theorem get_session_info_active_ignores_disk (canon : String → Option String)
    (reg : Registry) (sid : String) (s : ActiveSession)
    (h : reg.active.find? (fun a => a.id = sid) = some s) :
    get_session_info canon reg sid =
      some { id := sid, summary := "Active session", message_count := 0,
             last_activity := s.last_activity, cwd := s.cwd, active := true,
             project := some (cwd_to_path_key canon s.cwd),
             last_user_message := none, last_assistant_message := none } ∧
    ∀ projects2 : List ProjectDir,
      get_session_info canon { reg with projects := projects2 } sid =
        get_session_info canon reg sid := by
  constructor
  · unfold get_session_info
    rw [h]
  · intro projects2
    unfold get_session_info
    dsimp only
    rw [h]

/-- Witness for C10 at the concrete registry whose live session also has
an on-disk transcript. -/
theorem get_session_info_active_ignores_disk_witness :
    get_session_info canonNone mergeReg "s1" =
      some { id := "s1", summary := "Active session", message_count := 0,
             last_activity := "2024-05-05T00:00:00Z", cwd := "/w",
             active := true,
             project := some (cwd_to_path_key canonNone "/w"),
             last_user_message := none, last_assistant_message := none } :=
  (get_session_info_active_ignores_disk canonNone mergeReg "s1"
    { id := "s1", cwd := "/w", created_at := "t0",
      last_activity := "2024-05-05T00:00:00Z", modes := none, models := none }
    (by decide)).1

/-- C7: pagination — `total` is the size of the merged set before
slicing, the returned records are the window of the sorted set starting
at `offset` of size at most `limit`, `has_more` decides
`offset + limit < total`; and the two concrete 25-session scenarios of
the spec behave as stated. -/
theorem list_pagination_correct :
    (∀ canon reg cwd limit offset,
      (list_sessions canon reg cwd limit offset).total =
        (mergedSessions canon reg cwd).length ∧
      (list_sessions canon reg cwd limit offset).sessions =
        ((sortSessions (mergedSessions canon reg cwd)).drop offset).take limit ∧
      (list_sessions canon reg cwd limit offset).has_more =
        decide (offset + limit < (list_sessions canon reg cwd limit offset).total)) ∧
    (list_sessions canonNone reg25 none 10 20).sessions.length = 5 ∧
    (list_sessions canonNone reg25 none 10 20).has_more = false ∧
    (list_sessions canonNone reg25 none 10 20).total = 25 ∧
    (list_sessions canonNone reg25 none 10 0).sessions.length = 10 ∧
    (list_sessions canonNone reg25 none 10 0).has_more = true ∧
    (list_sessions canonNone reg25 none 10 0).total = 25 := by
  refine ⟨?_, by decide, by decide, by decide, by decide, by decide, by decide⟩
  intro canon reg cwd limit offset
  refine ⟨?_, rfl, rfl⟩
  unfold list_sessions
  dsimp only
  exact (sortSessions_perm (mergedSessions canon reg cwd)).length_eq

/-! Summary-flow lemmas for the pending-summary mechanism (C5). -/

theorem processLine_pending (st : ParseState) (e : Json) :
    (processLine st (some e)).pending_summaries =
      stagePending e st.pending_summaries := by
  cases h : e.getStr "sessionId" with
  | none => rw [processLine_noSid e st h, stageSummary_pending]
  | some v =>
    rw [processLine_sid e st v h, (updateTimestamp_frame e _).2.2.2.2,
        (trackMessage_frame e _).2, (applySummaryEvent_frame e _).2.2.2,
        (applyPendingSummary_frame e _).2.2.2, (updateCwd_frame e _).2.2.2.2,
        stageSummary_pending]

theorem applyPendingSummary_summary_NS (e : Json) (st : ParseState)
    (h : st.summary = "New Session") :
    (applyPendingSummary e st).summary =
      (match e.getStr "parentUuid" with
       | some pu =>
         match lookupPending st.pending_summaries pu with
         | some s => s
         | none => "New Session"
       | none => "New Session") := by
  unfold applyPendingSummary
  rw [if_pos h]
  cases hp : e.getStr "parentUuid" with
  | none => dsimp only; exact h
  | some pu =>
    dsimp only
    cases hl : lookupPending st.pending_summaries pu with
    | none => dsimp only; exact h
    | some s => dsimp only

theorem applyPendingSummary_summary_stay (e : Json) (st : ParseState)
    (h : ¬ st.summary = "New Session") :
    (applyPendingSummary e st).summary = st.summary := by
  unfold applyPendingSummary
  rw [if_neg h]

theorem applySummaryEvent_of_not_summary (e : Json) (st : ParseState)
    (h : ¬ e.getStr "type" = some "summary") :
    applySummaryEvent e st = st := by
  unfold applySummaryEvent
  rw [if_neg h]

theorem stagePending_pendOk (e : Json) (pend : List (String × String))
    (hp : ∀ kv ∈ pend, kv.2 ≠ "New Session")
    (he : e.getStr "type" = some "summary" →
      ¬ e.getStr "summary" = some "New Session") :
    ∀ kv ∈ stagePending e pend, kv.2 ≠ "New Session" := by
  unfold stagePending
  split
  · rename_i hts
    split
    · rename_i s leaf hs hl
      intro kv hkv
      rcases List.mem_cons.mp hkv with h1 | h2
      · subst h1
        intro hbad
        exact he hts (by rw [hs]; exact congrArg some hbad)
      · exact hp kv h2
    · exact hp
  · exact hp

theorem foldl_summary_frozen (lines : List (Option Json)) :
    ∀ st : ParseState, ¬ st.summary = "New Session" →
    (∀ e : Json, some e ∈ lines → e.getStr "type" = some "summary" →
       e.getStr "sessionId" = none) →
    (lines.foldl processLine st).summary = st.summary := by
  induction lines with
  | nil => intro st _ _; rfl
  | cons l rest ih =>
    intro st h hno
    simp only [List.foldl_cons]
    have hrest : ∀ e : Json, some e ∈ rest → e.getStr "type" = some "summary" →
        e.getStr "sessionId" = none :=
      fun e he => hno e (List.mem_cons_of_mem _ he)
    have hsum : (processLine st l).summary = st.summary := by
      cases l with
      | none => rfl
      | some e =>
        cases hsid : e.getStr "sessionId" with
        | none => rw [processLine_noSid e st hsid, stageSummary_summary]
        | some v =>
          have hnotsum : ¬ e.getStr "type" = some "summary" := by
            intro hts
            have h2 := hno e (List.mem_cons_self _ _) hts
            rw [h2] at hsid
            exact Option.noConfusion hsid
          rw [processLine_sid e st v hsid, (updateTimestamp_frame e _).1,
              (trackMessage_frame e _).1,
              applySummaryEvent_of_not_summary e _ hnotsum,
              applyPendingSummary_summary_stay e _
                (by rw [(updateCwd_frame e _).1, stageSummary_summary]; exact h),
              (updateCwd_frame e _).1, stageSummary_summary]
    rw [ih (processLine st l) (by rw [hsum]; exact h) hrest, hsum]

theorem lookupPending_ne_NS (pend : List (String × String)) (pu s : String)
    (h : lookupPending pend pu = some s)
    (hp : ∀ kv ∈ pend, kv.2 ≠ "New Session") : s ≠ "New Session" := by
  unfold lookupPending at h
  cases hf : pend.find? (fun p => p.1 = pu) with
  | none => rw [hf] at h; exact Option.noConfusion h
  | some p =>
    rw [hf] at h
    injection h with h2
    subst h2
    exact hp p (List.mem_of_find?_eq_some hf)

theorem processLine_sid_summary (e : Json) (st : ParseState) (v : String)
    (hsid : e.getStr "sessionId" = some v)
    (hnotsum : ¬ e.getStr "type" = some "summary")
    (hNS : st.summary = "New Session") :
    (processLine st (some e)).summary =
      (match e.getStr "parentUuid" with
       | some pu =>
         match lookupPending (stagePending e st.pending_summaries) pu with
         | some s => s
         | none => "New Session"
       | none => "New Session") := by
  rw [processLine_sid e st v hsid, (updateTimestamp_frame e _).1,
      (trackMessage_frame e _).1, applySummaryEvent_of_not_summary e _ hnotsum,
      applyPendingSummary_summary_NS e _
        (by rw [(updateCwd_frame e _).1, stageSummary_summary]; exact hNS),
      (updateCwd_frame e _).2.2.2.2, stageSummary_pending]

theorem foldl_summary_firstMatch (lines : List (Option Json)) :
    ∀ st : ParseState, st.summary = "New Session" →
    (∀ kv ∈ st.pending_summaries, kv.2 ≠ "New Session") →
    (∀ e : Json, some e ∈ lines → e.getStr "type" = some "summary" →
       e.getStr "sessionId" = none) →
    (∀ e : Json, some e ∈ lines → e.getStr "type" = some "summary" →
       ¬ e.getStr "summary" = some "New Session") →
    (lines.foldl processLine st).summary =
      firstMatchSummary lines st.pending_summaries := by
  induction lines with
  | nil =>
    intro st hNS _ _ _
    rw [List.foldl_nil]
    exact hNS
  | cons l rest ih =>
    intro st hNS hpend hno hnn
    have hnoR : ∀ e : Json, some e ∈ rest → e.getStr "type" = some "summary" →
        e.getStr "sessionId" = none :=
      fun e he => hno e (List.mem_cons_of_mem _ he)
    have hnnR : ∀ e : Json, some e ∈ rest → e.getStr "type" = some "summary" →
        ¬ e.getStr "summary" = some "New Session" :=
      fun e he => hnn e (List.mem_cons_of_mem _ he)
    simp only [List.foldl_cons]
    cases l with
    | none =>
      rw [processLine_none, ih st hNS hpend hnoR hnnR]
      simp only [firstMatchSummary]
    | some e =>
      cases hsid : e.getStr "sessionId" with
      | none =>
        rw [processLine_noSid e st hsid]
        rw [ih (stageSummary e st) (by rw [stageSummary_summary]; exact hNS)
            (by rw [stageSummary_pending]
                exact stagePending_pendOk e st.pending_summaries hpend
                  (fun hts => hnn e (List.mem_cons_self _ _) hts))
            hnoR hnnR]
        rw [stageSummary_pending]
        simp only [firstMatchSummary]
        rw [hsid]
        simp
      | some v =>
        have hnotsum : ¬ e.getStr "type" = some "summary" := by
          intro hts
          have h2 := hno e (List.mem_cons_self _ _) hts
          rw [h2] at hsid
          exact Option.noConfusion hsid
        have hpend2 : ∀ kv ∈ stagePending e st.pending_summaries,
            kv.2 ≠ "New Session" :=
          stagePending_pendOk e st.pending_summaries hpend
            (fun hts => hnn e (List.mem_cons_self _ _) hts)
        have hsum2 := processLine_sid_summary e st v hsid hnotsum hNS
        have hpend3 := processLine_pending st e
        simp only [firstMatchSummary]
        rw [hsid]
        simp only [Option.isSome_some, if_true]
        cases hpu : e.getStr "parentUuid" with
        | none =>
          rw [hpu] at hsum2
          try dsimp only at hsum2
          rw [ih (processLine st (some e)) hsum2
              (by rw [hpend3]; exact hpend2) hnoR hnnR, hpend3]
        | some pu =>
          rw [hpu] at hsum2
          try dsimp only at hsum2
          dsimp only
          cases hl : lookupPending (stagePending e st.pending_summaries) pu with
          | none =>
            rw [hl] at hsum2
            try dsimp only at hsum2
            rw [ih (processLine st (some e)) hsum2
                (by rw [hpend3]; exact hpend2) hnoR hnnR, hpend3]
          | some s =>
            rw [hl] at hsum2
            try dsimp only at hsum2
            have hsNS : s ≠ "New Session" :=
              lookupPending_ne_NS _ pu s hl hpend2
            rw [foldl_summary_frozen rest (processLine st (some e))
                (by rw [hsum2]; exact hsNS) hnoR, hsum2]

/-- C5 counterexample: on a transcript with no parent pointer at all —
whose first line is a summary event carrying a session id — the running
summary still changes (to that event's text), refuting the claim that
the summary stays "New Session" when no parent-pointer match occurs. -/
theorem c5_counterexample :
    (parse_session_file none c5CexLines).map SessionInfo.summary = some "S" ∧
    c5CexLines.all
      (fun line =>
        match line with
        | some e => (e.getStr "parentUuid").isNone
        | none => true) = true := by decide

/-- C5 (amended): provided no summary event carries a session id and no
summary event's text is itself "New Session", the running summary before
the final truncated-message fallback is exactly the staged text of the
first line whose parent pointer matches a staged `leafUuid` (first match
wins), and stays "New Session" when no parent-pointer match occurs.
Without these provisos the claim fails: a summary event carrying a
session id overwrites the running summary unconditionally, and a
parent-pointer match is applied only while the summary is still
"New Session". -/
theorem pending_summary_first_match (lines : List (Option Json))
    (hNoSid : ∀ e : Json, some e ∈ lines → e.getStr "type" = some "summary" →
      e.getStr "sessionId" = none)
    (hNoNS : ∀ e : Json, some e ∈ lines → e.getStr "type" = some "summary" →
      ¬ e.getStr "summary" = some "New Session") :
    (scanFile lines).summary = firstMatchSummary lines [] := by
  unfold scanFile
  exact foldl_summary_firstMatch lines initParseState rfl
    (fun kv h => absurd h (List.not_mem_nil kv)) hNoSid hNoNS

/-- Witness for C5's amended theorem on the concrete staged-summary
transcript (both sides evaluate to "Staged"). -/
theorem pending_summary_first_match_witness :
    (scanFile pendLines).summary = firstMatchSummary pendLines [] :=
  pending_summary_first_match pendLines
    (by
      intro e he hts
      rcases List.mem_cons.mp he with h1 | h2
      · cases h1
        decide
      · rcases List.mem_cons.mp h2 with h3 | h4
        · cases h3
          exact absurd hts (by decide)
        · exact absurd h4 (List.not_mem_nil _))
    (by
      intro e he hts
      rcases List.mem_cons.mp he with h1 | h2
      · cases h1
        decide
      · rcases List.mem_cons.mp h2 with h3 | h4
        · cases h3
          exact absurd hts (by decide)
        · exact absurd h4 (List.not_mem_nil _))

/-! Lemmas about the chat-history loader. -/

theorem load_foldl_eq_collectChat (parseTs : String → Option Int) (nowMs : Int)
    (freshId : Nat → String) (lines : List (Option Json)) :
    ∀ acc : List ChatItem,
      lines.foldl (fun acc line =>
        match chatLineMessage parseTs nowMs freshId acc.length line with
        | some m => acc ++ [ChatItem.message m]
        | none => acc) acc
      = acc ++ collectChat parseTs nowMs freshId lines acc.length := by
  induction lines with
  | nil => intro acc; simp [collectChat]
  | cons l rest ih =>
    intro acc
    simp only [List.foldl_cons]
    cases h : chatLineMessage parseTs nowMs freshId acc.length l with
    | none => rw [ih acc]; simp [collectChat, h]
    | some m =>
      rw [ih (acc ++ [ChatItem.message m])]
      simp [collectChat, h, List.length_append, List.append_assoc]

/-- The loader is the suffix-keep of the full accepted sequence. -/
theorem load_eq_suffixKeep (parseTs : String → Option Int) (nowMs : Int)
    (freshId : Nat → String) (lines : List (Option Json)) :
    load_session_chat_items parseTs nowMs freshId lines =
      suffixKeep MAX_HISTORY_ITEMS (collectChat parseTs nowMs freshId lines 0) := by
  unfold load_session_chat_items suffixKeep
  rw [load_foldl_eq_collectChat parseTs nowMs freshId lines []]
  simp

/-- C6 counterexample: on the transcript whose single line is a
system-reminder user message, `load_messages` yields no `ChatMessage`,
while `summarize` counts that line (message_count is 1) — so lines do not
yield a message exactly when `summarize` counts them. -/
theorem c6_counterexample :
    load_session_chat_items tsNone 0 freshU [some sysUserLine] = [] ∧
    (parse_session_file none [some sysUserLine]).map SessionInfo.message_count =
      some 1 := by decide

/-- C6 (amended): `load_messages` filters more strictly than
`summarize`'s counting — a line yields a `ChatMessage` exactly when it
has a session id, is not flagged as an API error, carries a `message`
with user or assistant role and extractable non-system text; every such
line is among those `summarize` counts, but not conversely.  Accepted
messages are emitted in file order with the line's own uuid as id (a
fresh one when absent), and only the final 200 entries are retained. -/
theorem load_messages_characterization :
    (∀ (parseTs : String → Option Int) (nowMs : Int) (freshId : Nat → String)
       (lines : List (Option Json)),
      load_session_chat_items parseTs nowMs freshId lines =
        suffixKeep MAX_HISTORY_ITEMS (collectChat parseTs nowMs freshId lines 0)) ∧
    (∀ (parseTs : String → Option Int) (nowMs : Int) (freshId : Nat → String)
       (k : Nat) (line : Option Json),
      (chatLineMessage parseTs nowMs freshId k line).isSome = acceptChatLine line) ∧
    (∀ line : Option Json, acceptChatLine line = true → isMessageLine line = true) ∧
    (∀ (parseTs : String → Option Int) (nowMs : Int) (freshId : Nat → String)
       (k : Nat) (e : Json) (m : Message),
      chatLineMessage parseTs nowMs freshId k (some e) = some m →
      m.id = (e.getStr "uuid").getD (freshId k)) := by
  refine ⟨load_eq_suffixKeep, ?_, ?_, ?_⟩
  · intro parseTs nowMs freshId k line
    cases line with
    | none => rfl
    | some entry =>
      unfold chatLineMessage acceptChatLine
      dsimp only
      repeat' split
      all_goals simp_all
  · intro line h
    cases line with
    | none => exact absurd h (by simp [acceptChatLine])
    | some e =>
      unfold acceptChatLine at h
      dsimp only at h
      unfold isMessageLine
      dsimp only
      split at h
      · exact absurd h (by simp)
      · split at h
        · exact absurd h (by simp)
        · rename_i h1 h2
          cases hm : e.get "message" with
          | none => rw [hm] at h; exact absurd h (by simp)
          | some msg =>
            have hs : (e.getStr "sessionId").isSome = true := by
              cases hss : e.getStr "sessionId" with
              | none => rw [hss] at h1; exact absurd rfl h1
              | some v => rfl
            simp [hs, hm]
  · intro parseTs nowMs freshId k e m h
    unfold chatLineMessage at h
    dsimp only at h
    repeat' split at h
    all_goals first
      | exact Option.noConfusion h
      | (injection h with h2; subst h2; rfl)

set_option maxRecDepth 4000 in
/-- Witness for C6's amended theorem at a concrete accepted line. -/
theorem load_messages_characterization_witness :
    isMessageLine (some plainUserLine) = true ∧
    ({ id := "u-1", role := MessageRole.user, content := "hello world",
       timestamp := (0 : Int) } : Message).id =
      ((plainUserLine.getStr "uuid").getD (freshU 0)) :=
  ⟨load_messages_characterization.2.2.1 (some plainUserLine) (by decide),
   load_messages_characterization.2.2.2 tsNone 0 freshU 0 plainUserLine
     { id := "u-1", role := MessageRole.user, content := "hello world",
       timestamp := (0 : Int) } (by decide)⟩

/-- C9: when the accepted message lines number more than 200,
`load_messages` returns exactly the most recent 200 as a suffix of the
full accepted sequence, in original order. -/
theorem load_messages_suffix_of_overflow (parseTs : String → Option Int)
    (nowMs : Int) (freshId : Nat → String) (lines : List (Option Json))
    (h : MAX_HISTORY_ITEMS < (collectChat parseTs nowMs freshId lines 0).length) :
    load_session_chat_items parseTs nowMs freshId lines =
      (collectChat parseTs nowMs freshId lines 0).drop
        ((collectChat parseTs nowMs freshId lines 0).length - MAX_HISTORY_ITEMS) ∧
    (load_session_chat_items parseTs nowMs freshId lines).length =
      MAX_HISTORY_ITEMS ∧
    load_session_chat_items parseTs nowMs freshId lines <:+
      collectChat parseTs nowMs freshId lines 0 := by
  have he := load_eq_suffixKeep parseTs nowMs freshId lines
  unfold suffixKeep at he
  rw [if_pos h] at he
  refine ⟨he, ?_, ?_⟩
  · rw [he, List.length_drop]
    omega
  · rw [he]
    exact List.drop_suffix _ _

set_option maxRecDepth 100000 in
/-- Witness for C9 at the concrete 250-line transcript. -/
theorem load_messages_suffix_of_overflow_witness :
    (load_session_chat_items tsNone 0 freshU manyLines).length =
      MAX_HISTORY_ITEMS :=
  (load_messages_suffix_of_overflow tsNone 0 freshU manyLines (by decide)).2.1

/-! Lemmas about the intermediate result map of `list_sessions`. -/

theorem find?_id_cons_pos (r : SessionInfo) (rest : List SessionInfo)
    (k : String) (h : r.id = k) :
    (r :: rest).find? (fun x => x.id = k) = some r :=
  List.find?_cons_of_pos _ (decide_eq_true h)

theorem find?_id_cons_neg (r : SessionInfo) (rest : List SessionInfo)
    (k : String) (h : ¬ r.id = k) :
    (r :: rest).find? (fun x => x.id = k) = rest.find? (fun x => x.id = k) :=
  List.find?_cons_of_neg _ (by simp only [decide_eq_true_eq]; exact h)

theorem containsKey_eq_isSome_getInfo (m : SessionMap) (k : String) :
    containsKey m k = (getInfo m k).isSome := by
  induction m with
  | nil => rfl
  | cons r rest ih =>
    unfold containsKey getInfo at *
    by_cases hr : r.id = k
    · rw [List.any_cons, find?_id_cons_pos r rest k hr]
      simp [hr]
    · rw [List.any_cons, find?_id_cons_neg r rest k hr]
      simp [hr, ih]

theorem getInfo_mapIf (m : SessionMap) (key : String) (f : SessionInfo → SessionInfo)
    (hf : ∀ r : SessionInfo, r.id = key → (f r).id = key) (k : String) :
    getInfo (m.map (fun r => if r.id = key then f r else r)) k =
      if key = k then (getInfo m k).map f else getInfo m k := by
  induction m with
  | nil => by_cases hk : key = k <;> simp [getInfo, hk]
  | cons r rest ih =>
    simp only [List.map_cons]
    unfold getInfo at *
    by_cases hr : r.id = key
    · rw [if_pos hr]
      by_cases hk : key = k
      · rw [find?_id_cons_pos _ _ k (hk ▸ hf r hr),
            find?_id_cons_pos r rest k (hk ▸ hr), if_pos hk]
        rfl
      · rw [find?_id_cons_neg _ _ k (by rw [hf r hr]; exact hk),
            find?_id_cons_neg r rest k (by rw [hr]; exact hk), if_neg hk]
        rw [ih, if_neg hk]
    · rw [if_neg hr]
      by_cases hrk : r.id = k
      · have hk : ¬ key = k := fun h => hr (h ▸ hrk)
        rw [find?_id_cons_pos r _ k hrk, find?_id_cons_pos r rest k hrk,
            if_neg hk]
      · rw [find?_id_cons_neg r _ k hrk, find?_id_cons_neg r rest k hrk, ih]

theorem getInfo_eq_none_of_not_contains (m : SessionMap) (k : String)
    (h : containsKey m k = false) : getInfo m k = none := by
  rw [containsKey_eq_isSome_getInfo] at h
  cases hg : getInfo m k with
  | none => rfl
  | some v => rw [hg] at h; exact absurd h (by simp)

theorem getInfo_upsertInfo_self (m : SessionMap) (v : SessionInfo) :
    getInfo (upsertInfo m v) v.id = some v := by
  unfold upsertInfo
  split
  · rename_i hc
    rw [getInfo_mapIf m v.id (fun _ => v) (fun r _ => rfl), if_pos rfl]
    rw [containsKey_eq_isSome_getInfo] at hc
    cases hg : getInfo m v.id with
    | none => rw [hg] at hc; exact absurd hc (by simp)
    | some w => simp
  · rename_i hc
    have hn : getInfo m v.id = none :=
      getInfo_eq_none_of_not_contains m v.id (by simpa using hc)
    unfold getInfo at *
    rw [List.find?_append, hn, find?_id_cons_pos v [] v.id rfl]
    rfl

theorem getInfo_upsertInfo_ne (m : SessionMap) (v : SessionInfo) (k : String)
    (h : ¬ v.id = k) : getInfo (upsertInfo m v) k = getInfo m k := by
  unfold upsertInfo
  split
  · rw [getInfo_mapIf m v.id (fun _ => v) (fun r _ => rfl), if_neg h]
  · unfold getInfo
    rw [List.find?_append, find?_id_cons_neg v [] k h, List.find?_nil]
    cases m.find? (fun x => x.id = k) <;> rfl

theorem getInfo_modifyInfo (m : SessionMap) (key : String)
    (f : SessionInfo → SessionInfo) (hf : ∀ r : SessionInfo, (f r).id = r.id)
    (k : String) :
    getInfo (modifyInfo m key f) k =
      if key = k then (getInfo m k).map f else getInfo m k := by
  unfold modifyInfo
  exact getInfo_mapIf m key f (fun r hr => by rw [hf r, hr]) k

theorem containsKey_upsertInfo_ne (m : SessionMap) (v : SessionInfo) (k : String)
    (h : ¬ v.id = k) :
    containsKey (upsertInfo m v) k = containsKey m k := by
  rw [containsKey_eq_isSome_getInfo, containsKey_eq_isSome_getInfo,
      getInfo_upsertInfo_ne m v k h]

theorem containsKey_modifyInfo (m : SessionMap) (key : String)
    (f : SessionInfo → SessionInfo) (hf : ∀ r : SessionInfo, (f r).id = r.id)
    (k : String) :
    containsKey (modifyInfo m key f) k = containsKey m k := by
  rw [containsKey_eq_isSome_getInfo, containsKey_eq_isSome_getInfo,
      getInfo_modifyInfo m key f hf k]
  by_cases hk : key = k
  · rw [if_pos hk]; cases getInfo m k <;> rfl
  · rw [if_neg hk]

theorem enrichInfo_id (parsed r : SessionInfo) : (enrichInfo parsed r).id = r.id := rfl

theorem activeInfo_id (canon : String → Option String) (s : ActiveSession) :
    (activeInfo canon s).id = s.id := rfl

theorem histInfo_id (pn sid : String) (parsed : SessionInfo) :
    (histInfo pn sid parsed).id = sid := rfl

/-! Frame lemmas for the scan of step 3. -/

theorem processFile_getInfo_other (pn : String) (m : SessionMap) (f : SessionFile)
    (sid : String) (h : ¬ (f.name = sid ∧ f.ext = "jsonl")) :
    getInfo (processFile pn m f) sid = getInfo m sid := by
  unfold processFile
  by_cases hext : f.ext = "jsonl"
  · rw [if_pos hext]
    have hname : ¬ f.name = sid := fun hn => h ⟨hn, hext⟩
    by_cases hc : containsKey m f.name
    · rw [if_pos hc]
      cases hp : parse_session_file f.mtime f.lines with
      | none => rfl
      | some parsed =>
        rw [getInfo_modifyInfo m f.name (enrichInfo parsed) (enrichInfo_id parsed),
            if_neg hname]
    · rw [if_neg hc]
      by_cases hag : strStartsWith f.name "agent-" = true
      · rw [if_pos hag]
      · rw [if_neg hag]
        cases hp : parse_session_file f.mtime f.lines with
        | none => rfl
        | some parsed =>
          exact getInfo_upsertInfo_ne m _ sid
            (by rw [histInfo_id pn f.name parsed]; exact hname)
  · rw [if_neg hext]

theorem processFile_containsKey_false (pn : String) (m : SessionMap)
    (f : SessionFile) (sid : String) (h0 : containsKey m sid = false)
    (h : f.name = sid → f.ext = "jsonl" →
      strStartsWith sid "agent-" = true ∨
      parse_session_file f.mtime f.lines = none) :
    containsKey (processFile pn m f) sid = false := by
  unfold processFile
  by_cases hext : f.ext = "jsonl"
  · rw [if_pos hext]
    by_cases hname : f.name = sid
    · subst hname
      rw [if_neg (by rw [h0]; exact Bool.false_ne_true)]
      by_cases hag : strStartsWith f.name "agent-" = true
      · rw [if_pos hag]; exact h0
      · rw [if_neg hag]
        rcases h rfl hext with hag2 | hp
        · exact absurd hag2 hag
        · simp only [hp]; exact h0
    · by_cases hc : containsKey m f.name
      · rw [if_pos hc]
        cases hp : parse_session_file f.mtime f.lines with
        | none => exact h0
        | some parsed =>
          rw [containsKey_modifyInfo m f.name (enrichInfo parsed)
              (enrichInfo_id parsed)]
          exact h0
      · rw [if_neg hc]
        by_cases hag : strStartsWith f.name "agent-" = true
        · rw [if_pos hag]; exact h0
        · rw [if_neg hag]
          cases hp : parse_session_file f.mtime f.lines with
          | none => exact h0
          | some parsed =>
            rw [containsKey_upsertInfo_ne m _ sid
                (by rw [histInfo_id pn f.name parsed]; exact hname)]
            exact h0
  · rw [if_neg hext]; exact h0

theorem foldFiles_containsKey_false (sid : String)
    (pfs : List (String × SessionFile)) :
    ∀ m : SessionMap, containsKey m sid = false →
    (∀ pf ∈ pfs, pf.2.name = sid → pf.2.ext = "jsonl" →
      strStartsWith sid "agent-" = true ∨
      parse_session_file pf.2.mtime pf.2.lines = none) →
    containsKey
      (pfs.foldl (fun m pf => processFile pf.1 m pf.2) m) sid = false := by
  induction pfs with
  | nil => intro m h0 _; exact h0
  | cons pf rest ih =>
    intro m h0 h
    simp only [List.foldl_cons]
    exact ih (processFile pf.1 m pf.2)
      (processFile_containsKey_false pf.1 m pf.2 sid h0
        (h pf (List.mem_cons_self _ _)))
      (fun q hq => h q (List.mem_cons_of_mem _ hq))

theorem scanDirs_eq_foldFiles (dirs : List ProjectDir) :
    ∀ m : SessionMap,
    scanDirs m dirs = (dirFiles dirs).foldl (fun m pf => processFile pf.1 m pf.2) m := by
  induction dirs with
  | nil => intro m; rfl
  | cons d rest ih =>
    intro m
    unfold scanDirs dirFiles
    simp only [List.foldl_cons, List.flatMap_cons, List.foldl_append]
    unfold scanDirs at ih
    unfold dirFiles at ih
    rw [ih]
    congr 1
    rw [List.foldl_map]

theorem seed_foldl_containsKey_false (canon : String → Option String)
    (filter_cwd : Option String) (sid : String) (active : List ActiveSession) :
    ∀ m : SessionMap, containsKey m sid = false →
    (∀ a ∈ active, a.id ≠ sid) →
    containsKey
      (active.foldl (fun m s =>
        match filter_cwd with
        | some f => if s.cwd = f then upsertInfo m (activeInfo canon s) else m
        | none => upsertInfo m (activeInfo canon s)) m) sid = false := by
  induction active with
  | nil => intro m h0 _; exact h0
  | cons s rest ih =>
    intro m h0 h
    simp only [List.foldl_cons]
    refine ih _ ?_ (fun a ha => h a (List.mem_cons_of_mem _ ha))
    cases filter_cwd with
    | none =>
      dsimp only
      rw [containsKey_upsertInfo_ne m _ sid
          (by rw [activeInfo_id canon s]; exact h s (List.mem_cons_self _ _))]
      exact h0
    | some f =>
      dsimp only
      split
      · rw [containsKey_upsertInfo_ne m _ sid
            (by rw [activeInfo_id canon s]; exact h s (List.mem_cons_self _ _))]
        exact h0
      · exact h0

theorem seedActive_containsKey_false (canon : String → Option String)
    (filter_cwd : Option String) (sid : String) (active : List ActiveSession)
    (h : ∀ a ∈ active, a.id ≠ sid) :
    containsKey (seedActive canon filter_cwd active) sid = false := by
  unfold seedActive
  exact seed_foldl_containsKey_false canon filter_cwd sid active [] rfl h

theorem selectDirs_subset (canon : String → Option String)
    (projects : List ProjectDir) (filter_cwd : Option String) :
    ∀ d ∈ selectDirs canon projects filter_cwd, d ∈ projects := by
  intro d hd
  cases filter_cwd with
  | none => exact hd
  | some f =>
    unfold selectDirs at hd
    dsimp only at hd
    cases hfind : projects.find? (fun x => x.name = cwd_to_path_key canon f) with
    | none => rw [hfind] at hd; cases hd
    | some d2 =>
      rw [hfind] at hd
      rcases List.mem_cons.mp hd with h1 | h2
      · subst h1; exact List.mem_of_find?_eq_some hfind
      · exact absurd h2 (List.not_mem_nil d)

/-- Shared exclusion lemma: a session id absent from the active table,
every one of whose transcript files is skipped (background prefix or
unparseable), never appears in the output of `list_sessions`. -/
theorem list_sessions_excludes (canon : String → Option String) (reg : Registry)
    (filter_cwd : Option String) (limit offset : Nat) (sid : String)
    (hAct : ∀ a ∈ reg.active, a.id ≠ sid)
    (hFiles : ∀ d ∈ reg.projects, ∀ f ∈ d.files, f.name = sid →
      f.ext = "jsonl" → strStartsWith sid "agent-" = true ∨
      parse_session_file f.mtime f.lines = none) :
    ∀ r ∈ (list_sessions canon reg filter_cwd limit offset).sessions,
      r.id ≠ sid := by
  have hseed : containsKey (seedActive canon filter_cwd reg.active) sid = false :=
    seedActive_containsKey_false canon filter_cwd sid reg.active hAct
  have hdirs : ∀ pf ∈ dirFiles (selectDirs canon reg.projects filter_cwd),
      pf.2.name = sid → pf.2.ext = "jsonl" →
      strStartsWith sid "agent-" = true ∨
      parse_session_file pf.2.mtime pf.2.lines = none := by
    intro pf hpf
    rcases List.mem_flatMap.mp hpf with ⟨d, hd, hpd⟩
    rcases List.mem_map.mp hpd with ⟨f, hf, hfe⟩
    subst hfe
    exact hFiles d (selectDirs_subset canon reg.projects filter_cwd d hd) f hf
  have hmerged : containsKey (mergedSessions canon reg filter_cwd) sid = false := by
    unfold mergedSessions
    rw [scanDirs_eq_foldFiles]
    exact foldFiles_containsKey_false sid _ _ hseed hdirs
  intro r hr hid
  have h1 : r ∈ sortSessions (mergedSessions canon reg filter_cwd) := by
    unfold list_sessions at hr
    dsimp only at hr
    exact List.mem_of_mem_drop (List.mem_of_mem_take hr)
  have h2 : r ∈ mergedSessions canon reg filter_cwd :=
    (sortSessions_perm _).mem_iff.mp h1
  unfold containsKey at hmerged
  have h3 := List.any_eq_false.mp hmerged r h2
  simp only [decide_eq_true_eq] at h3
  exact h3 hid

/-- C3 counterexample: a live background session (id starting "agent-")
does appear in `list()`, and `get_session_info` returns a record for an
on-disk background transcript — the reserved prefix is only honoured in
the disk-scan insert of `list()`. -/
theorem c3_counterexample :
    (list_sessions canonNone agentReg none 20 0).sessions.map SessionInfo.id =
      ["agent-x"] ∧
    (get_session_info canonNone agentDiskReg "agent-y").isSome = true := by
  decide

/-- C3 (amended): a session id with the reserved background prefix is
excluded from `list()` only as a disk-derived record: when such an id is
not in the active table, no record with that id ever appears in the
listing.  (A live background session still appears, and
`get_session_info` applies no prefix check at all.) -/
theorem agent_prefix_excluded_from_disk_scan (canon : String → Option String)
    (reg : Registry) (filter_cwd : Option String) (limit offset : Nat)
    (sid : String) (hPre : strStartsWith sid "agent-" = true)
    (hAct : ∀ a ∈ reg.active, a.id ≠ sid) :
    ∀ r ∈ (list_sessions canon reg filter_cwd limit offset).sessions,
      r.id ≠ sid :=
  list_sessions_excludes canon reg filter_cwd limit offset sid hAct
    (fun _ _ _ _ _ _ => Or.inl hPre)

/-- Witness for C3's amended theorem: in the registry whose only live
session is "agent-x" and whose disk is empty, the single listed record is
not "agent-y". -/
theorem agent_prefix_excluded_from_disk_scan_witness :
    ({ id := "agent-x", summary := "Active session", message_count := 0,
       last_activity := "t1", cwd := "/w", active := true,
       project := some (cwd_to_path_key canonNone "/w"),
       last_user_message := none,
       last_assistant_message := none } : SessionInfo).id ≠ "agent-y" :=
  agent_prefix_excluded_from_disk_scan canonNone agentReg none 20 0 "agent-y"
    (by decide) (by decide) _ (by decide)

/-- C2 counterexample: a transcript whose only message line is
system-filtered has zero message events surviving filtering, yet
`summarize` still returns a record (the count doesn't apply the
filter). -/
theorem c2_counterexample :
    (parse_session_file none [some sysUserLine]).isSome = true ∧
    is_system_message "<system-reminder>hi" = true ∧
    load_session_chat_items tsNone 0 freshU [some sysUserLine] = [] := by
  decide

/-- C2 (amended): a transcript with zero message-event lines — no line
carrying both a session id and a `message` field, regardless of
system-message filtering — yields an absent `summarize` result, and such
a session id (when not live) produces no catalog record in `list()`. -/
theorem empty_transcript_excluded :
    (∀ (mtime : Option String) (lines : List (Option Json)),
      countMessageLines lines = 0 → parse_session_file mtime lines = none) ∧
    (∀ (canon : String → Option String) (reg : Registry)
       (filter_cwd : Option String) (limit offset : Nat) (sid : String),
      (∀ a ∈ reg.active, a.id ≠ sid) →
      (∀ d ∈ reg.projects, ∀ f ∈ d.files, f.name = sid →
        countMessageLines f.lines = 0) →
      ∀ r ∈ (list_sessions canon reg filter_cwd limit offset).sessions,
        r.id ≠ sid) := by
  refine ⟨parse_none_of_no_message_lines, ?_⟩
  intro canon reg filter_cwd limit offset sid hAct hFiles
  exact list_sessions_excludes canon reg filter_cwd limit offset sid hAct
    (fun d hd f hf hn _ =>
      Or.inr (parse_none_of_no_message_lines f.mtime f.lines
        (hFiles d hd f hf hn)))

/-- Witness for C2's amended theorem at the concrete message-free
transcript. -/
theorem empty_transcript_excluded_witness :
    parse_session_file (some "2024-01-01T00:00:00Z") noMsgFile.lines = none :=
  empty_transcript_excluded.1 (some "2024-01-01T00:00:00Z") noMsgFile.lines
    (by decide)

/-! Machinery for the merge claim (C4). -/

theorem upsert_foldl_eq_append (canon : String → Option String)
    (active : List ActiveSession) :
    ∀ m : SessionMap, (∀ a ∈ active, containsKey m a.id = false) →
    (active.map ActiveSession.id).Nodup →
    active.foldl (fun m s => upsertInfo m (activeInfo canon s)) m =
      m ++ active.map (activeInfo canon) := by
  induction active with
  | nil => intro m _ _; simp
  | cons s rest ih =>
    intro m hfresh hnodup
    rw [List.map_cons] at hnodup
    obtain ⟨hhead, htail⟩ := List.nodup_cons.mp hnodup
    simp only [List.foldl_cons, List.map_cons]
    have hcs : containsKey m s.id = false := hfresh s (List.mem_cons_self _ _)
    have hup : upsertInfo m (activeInfo canon s) = m ++ [activeInfo canon s] := by
      unfold upsertInfo
      rw [if_neg (by rw [activeInfo_id, hcs]; exact Bool.false_ne_true)]
    rw [hup, ih (m ++ [activeInfo canon s]) ?_ htail]
    · rw [List.append_assoc]
      rfl
    · intro a ha
      unfold containsKey
      rw [List.any_append]
      have h1 : containsKey m a.id = false := hfresh a (List.mem_cons_of_mem _ ha)
      unfold containsKey at h1
      rw [h1]
      have h2 : s.id ≠ a.id := by
        intro hsa
        exact hhead (by rw [hsa]; exact List.mem_map.mpr ⟨a, ha, rfl⟩)
      simp [activeInfo_id, h2]

theorem seedActive_none_eq (canon : String → Option String)
    (active : List ActiveSession)
    (h : (active.map ActiveSession.id).Nodup) :
    seedActive canon none active = active.map (activeInfo canon) := by
  unfold seedActive
  dsimp only
  rw [upsert_foldl_eq_append canon active [] (fun a _ => rfl) h]
  rfl

theorem getInfo_seed (canon : String → Option String)
    (active : List ActiveSession) (s : ActiveSession)
    (hnodup : (active.map ActiveSession.id).Nodup) (hs : s ∈ active) :
    getInfo (active.map (activeInfo canon)) s.id = some (activeInfo canon s) := by
  induction active with
  | nil => exact absurd hs (List.not_mem_nil s)
  | cons a rest ih =>
    rw [List.map_cons] at hnodup
    obtain ⟨hhead, htail⟩ := List.nodup_cons.mp hnodup
    simp only [List.map_cons]
    by_cases ha : a.id = s.id
    · have heq : a = s := by
        rcases List.mem_cons.mp hs with h1 | h2
        · exact h1.symm
        · exfalso
          exact hhead (by rw [ha]; exact List.mem_map.mpr ⟨s, h2, rfl⟩)
      subst heq
      exact find?_id_cons_pos _ _ _ (activeInfo_id canon a)
    · unfold getInfo
      rw [find?_id_cons_neg _ _ _ (by rw [activeInfo_id]; exact ha)]
      have hs2 : s ∈ rest := by
        rcases List.mem_cons.mp hs with h1 | h2
        · exact absurd (h1 ▸ rfl) ha
        · exact h2
      exact ih htail hs2

theorem upsertInfo_ids_nodup (m : SessionMap) (v : SessionInfo)
    (h : (m.map (fun r => r.id)).Nodup) :
    ((upsertInfo m v).map (fun r => r.id)).Nodup := by
  unfold upsertInfo
  split
  · have hids : ((m.map (fun r => if r.id = v.id then v else r)).map
        (fun r => r.id)) = m.map (fun r => r.id) := by
      rw [List.map_map]
      apply List.map_congr_left
      intro r _
      by_cases hr : r.id = v.id <;> simp [hr]
    rw [hids]
    exact h
  · rename_i hc
    rw [List.map_append]
    refine List.Nodup.append h (by simp) ?_
    intro x hx hx2
    have hxv : x = v.id := by simpa using hx2
    subst hxv
    rcases List.mem_map.mp hx with ⟨r, hr, hrid⟩
    have : containsKey m v.id = true := by
      unfold containsKey
      rw [List.any_eq_true]
      exact ⟨r, hr, by simp [hrid]⟩
    simp [this] at hc

theorem modifyInfo_ids (m : SessionMap) (key : String)
    (f : SessionInfo → SessionInfo) (hf : ∀ r : SessionInfo, (f r).id = r.id) :
    ((modifyInfo m key f).map (fun r => r.id)) = m.map (fun r => r.id) := by
  unfold modifyInfo
  rw [List.map_map]
  apply List.map_congr_left
  intro r _
  by_cases hr : r.id = key <;> simp [hr, hf r]

theorem processFile_ids_nodup (pn : String) (m : SessionMap) (f : SessionFile)
    (h : (m.map (fun r => r.id)).Nodup) :
    ((processFile pn m f).map (fun r => r.id)).Nodup := by
  unfold processFile
  by_cases hext : f.ext = "jsonl"
  · rw [if_pos hext]
    by_cases hc : containsKey m f.name
    · rw [if_pos hc]
      cases hp : parse_session_file f.mtime f.lines with
      | none => exact h
      | some parsed =>
        rw [modifyInfo_ids m f.name (enrichInfo parsed) (enrichInfo_id parsed)]
        exact h
    · rw [if_neg hc]
      by_cases hag : strStartsWith f.name "agent-" = true
      · rw [if_pos hag]; exact h
      · rw [if_neg hag]
        cases hp : parse_session_file f.mtime f.lines with
        | none => exact h
        | some parsed => exact upsertInfo_ids_nodup m _ h
  · rw [if_neg hext]; exact h

theorem foldFiles_ids_nodup (pfs : List (String × SessionFile)) :
    ∀ m : SessionMap, (m.map (fun r => r.id)).Nodup →
    (((pfs.foldl (fun m pf => processFile pf.1 m pf.2) m)).map
      (fun r => r.id)).Nodup := by
  induction pfs with
  | nil => intro m h; exact h
  | cons pf rest ih =>
    intro m h
    simp only [List.foldl_cons]
    exact ih _ (processFile_ids_nodup pf.1 m pf.2 h)

theorem foldFiles_getInfo_preserved (sid : String)
    (pfs : List (String × SessionFile)) :
    ∀ m : SessionMap,
    (∀ pf ∈ pfs, ¬ (pf.2.name = sid ∧ pf.2.ext = "jsonl")) →
    getInfo (pfs.foldl (fun m pf => processFile pf.1 m pf.2) m) sid =
      getInfo m sid := by
  induction pfs with
  | nil => intro m _; rfl
  | cons pf rest ih =>
    intro m h
    simp only [List.foldl_cons]
    rw [ih _ (fun q hq => h q (List.mem_cons_of_mem _ hq)),
        processFile_getInfo_other pf.1 m pf.2 sid (h pf (List.mem_cons_self _ _))]

theorem processFile_enrich (pn : String) (m : SessionMap) (f : SessionFile)
    (sid : String) (v p : SessionInfo)
    (hname : f.name = sid) (hext : f.ext = "jsonl")
    (hp : parse_session_file f.mtime f.lines = some p)
    (hv : getInfo m sid = some v) :
    getInfo (processFile pn m f) sid = some (enrichInfo p v) := by
  unfold processFile
  rw [if_pos hext]
  subst hname
  rw [if_pos (by rw [containsKey_eq_isSome_getInfo, hv]; rfl)]
  simp only [hp]
  rw [getInfo_modifyInfo m f.name (enrichInfo p) (enrichInfo_id p), if_pos rfl,
      hv]
  rfl

theorem filter_eq_singleton_split {α : Type} (p : α → Bool) (l : List α) (a : α)
    (h : l.filter p = [a]) :
    ∃ l1 l2, l = l1 ++ a :: l2 ∧ (∀ x ∈ l1, ¬ p x = true) ∧ p a = true ∧
      (∀ x ∈ l2, ¬ p x = true) := by
  rcases List.filter_eq_cons_iff.mp h with ⟨l1, l2, hl, h1, hpa, h2⟩
  exact ⟨l1, l2, hl, h1, hpa, List.filter_eq_nil_iff.mp h2⟩

theorem filter_id_eq_singleton (m : SessionMap) (sid : String) (v : SessionInfo)
    (hn : (m.map (fun r => r.id)).Nodup) (hg : getInfo m sid = some v) :
    m.filter (fun r => r.id = sid) = [v] := by
  induction m with
  | nil => exact absurd hg (by simp [getInfo])
  | cons r rest ih =>
    rw [List.map_cons] at hn
    obtain ⟨hhead, htail⟩ := List.nodup_cons.mp hn
    by_cases hr : r.id = sid
    · unfold getInfo at hg
      rw [find?_id_cons_pos r rest sid hr] at hg
      injection hg with hv
      subst hv
      rw [List.filter_cons, if_pos (decide_eq_true hr)]
      have hnil : rest.filter (fun x => x.id = sid) = [] := by
        rw [List.filter_eq_nil_iff]
        intro x hx hpx
        simp only [decide_eq_true_eq] at hpx
        exact hhead (List.mem_map.mpr ⟨x, hx, by rw [hpx, hr]⟩)
      rw [hnil]
    · unfold getInfo at hg
      rw [find?_id_cons_neg r rest sid hr] at hg
      rw [List.filter_cons, if_neg (by simp [hr])]
      exact ih htail hg

/-- C4: a session present both in the active table and (exactly once) as
a transcript on disk appears exactly once in an unfiltered, unpaginated
`list()`: with active = true and last_activity, cwd and project from the
in-memory state, while summary, message_count and the two previews come
from the parsed transcript. -/
theorem merge_enriches_active_record (canon : String → Option String)
    (reg : Registry) (s : ActiveSession) (pname : String) (f : SessionFile)
    (p : SessionInfo) (limit : Nat)
    (hN : (reg.active.map ActiveSession.id).Nodup)
    (hs : s ∈ reg.active)
    (hf : (dirFiles reg.projects).filter
        (fun pf => pf.2.name = s.id && pf.2.ext = "jsonl") = [(pname, f)])
    (hp : parse_session_file f.mtime f.lines = some p)
    (hlim : (mergedSessions canon reg none).length ≤ limit) :
    (list_sessions canon reg none limit 0).sessions.filter
        (fun r => r.id = s.id) =
      [{ id := s.id, summary := p.summary, message_count := p.message_count,
         last_activity := s.last_activity, cwd := s.cwd, active := true,
         project := some (cwd_to_path_key canon s.cwd),
         last_user_message := p.last_user_message,
         last_assistant_message := p.last_assistant_message }] := by
  have hseed : seedActive canon none reg.active =
      reg.active.map (activeInfo canon) := seedActive_none_eq canon reg.active hN
  have hseedget : getInfo (seedActive canon none reg.active) s.id =
      some (activeInfo canon s) := by
    rw [hseed]
    exact getInfo_seed canon reg.active s hN hs
  have hseednodup : ((seedActive canon none reg.active).map
      (fun r => r.id)).Nodup := by
    rw [hseed, List.map_map]
    have : ((fun r : SessionInfo => r.id) ∘ activeInfo canon) =
        ActiveSession.id := rfl
    rw [this]
    exact hN
  obtain ⟨l1, l2, hsplit, h1, hpa, h2⟩ :=
    filter_eq_singleton_split _ (dirFiles reg.projects) (pname, f) hf
  have hfn : f.name = s.id ∧ f.ext = "jsonl" := by
    simp only [Bool.and_eq_true, decide_eq_true_eq] at hpa
    exact hpa
  have hmain : getInfo (mergedSessions canon reg none) s.id =
      some (enrichInfo p (activeInfo canon s)) := by
    unfold mergedSessions
    rw [scanDirs_eq_foldFiles]
    have hsel : selectDirs canon reg.projects none = reg.projects := rfl
    rw [hsel, hsplit, List.foldl_append, List.foldl_cons]
    rw [foldFiles_getInfo_preserved s.id l2 _ (fun x hx => by
      have := h2 x hx
      simp only [Bool.and_eq_true, decide_eq_true_eq] at this
      exact fun hc => this ⟨hc.1, hc.2⟩)]
    refine processFile_enrich pname _ f s.id (activeInfo canon s) p hfn.1 hfn.2
      hp ?_
    rw [foldFiles_getInfo_preserved s.id l1 _ (fun x hx => by
      have := h1 x hx
      simp only [Bool.and_eq_true, decide_eq_true_eq] at this
      exact fun hc => this ⟨hc.1, hc.2⟩)]
    exact hseedget
  have hmnodup : ((mergedSessions canon reg none).map (fun r => r.id)).Nodup := by
    unfold mergedSessions
    rw [scanDirs_eq_foldFiles]
    exact foldFiles_ids_nodup _ _ hseednodup
  have hfilter : (mergedSessions canon reg none).filter
      (fun r => r.id = s.id) = [enrichInfo p (activeInfo canon s)] :=
    filter_id_eq_singleton _ s.id _ hmnodup hmain
  have hsorted : (sortSessions (mergedSessions canon reg none)).filter
      (fun r => r.id = s.id) = [enrichInfo p (activeInfo canon s)] := by
    have hperm := (sortSessions_perm (mergedSessions canon reg none)).filter
      (fun r => r.id = s.id)
    rw [hfilter] at hperm
    exact List.perm_singleton.mp hperm
  have hsessions : (list_sessions canon reg none limit 0).sessions =
      sortSessions (mergedSessions canon reg none) := by
    unfold list_sessions
    dsimp only
    rw [List.drop_zero]
    exact List.take_of_length_le (by
      rw [(sortSessions_perm (mergedSessions canon reg none)).length_eq]
      exact hlim)
  rw [hsessions, hsorted]
  rfl

/-- Witness for C4 at the concrete registry whose live session "s1" also
has a one-file transcript on disk. -/
theorem merge_enriches_active_record_witness :
    (list_sessions canonNone mergeReg none 20 0).sessions.filter
        (fun r => r.id = "s1") =
      [{ id := "s1", summary := "Staged", message_count := 1,
         last_activity := "2024-05-05T00:00:00Z", cwd := "/w", active := true,
         project := some (cwd_to_path_key canonNone "/w"),
         last_user_message := some "hi there",
         last_assistant_message := none }] :=
  merge_enriches_active_record canonNone mergeReg
    { id := "s1", cwd := "/w", created_at := "t0",
      last_activity := "2024-05-05T00:00:00Z", modes := none, models := none }
    "-w" s1File
    { id := "", summary := "Staged", message_count := 1,
      last_activity := "2024-01-01T00:00:00Z", cwd := "", active := false,
      project := none, last_user_message := some "hi there",
      last_assistant_message := none }
    20 (by decide) (by decide) (by rfl) (by decide) (by decide)
